import Mathlib

/-!
Verification of the shell-session layer (`HostShell` / `SSHShell`) of
`composio/tools/env/host/shell.py` against its natural-language specification.

The Python code is shallowly embedded: every string operation used by the
source (`split`, `splitlines`, `strip`, `rstrip`, `lower`, `replace`, `in`,
`find`-truncation, `startswith`, `endswith`, `int(...)`, `"\n".join`) is
implemented over `List Char` with structural recursion so that all
definitions are executable and kernel-reducible.  Modelling notes:

* Python whitespace is modelled as space, tab, CR, LF, vertical tab and
  form feed; `str.splitlines` is modelled for `\n` line boundaries (the
  only separator the code itself emits).
* `int(...)` is modelled for an optional sign followed by decimal digits
  (the only shapes the shell's `$?` expansion produces).
* `hash(cmd)` (Python salts string hashes per process) is modelled as an
  integer parameter `h` supplied to the functions that use it.
* The process-table snapshot, the raw bytes buffered from the two pipes,
  and the liveness of the subprocess are inputs to the embedded functions,
  since they are the data the polling loop consumes.
-/

deriving instance DecidableEq for Except

namespace Shell

/-- Python whitespace characters (`str.split` / `strip` default set). -/
def pyWs (c : Char) : Bool :=
  c = ' ' || c = '\t' || c = '\n' || c = '\r' || c = '\x0b' || c = '\x0c'

/-- Auxiliary for whitespace splitting: `cur` holds the reversed chars of the
word being accumulated. -/
def wordsAux (cur : List Char) : List Char → List (List Char)
  | [] => if cur.isEmpty then [] else [cur.reverse]
  | c :: cs =>
    if pyWs c then
      if cur.isEmpty then wordsAux [] cs else cur.reverse :: wordsAux [] cs
    else wordsAux (c :: cur) cs

/-- Python `str.split()` (no separator): split on whitespace runs, no empty
pieces. -/
def splitWsL (l : List Char) : List (List Char) := wordsAux [] l

/-- Auxiliary for `str.split(sep)` with non-empty separator `s :: sr`.
Fuel-based so that the kernel can evaluate it; the fuel is the length of the
remaining input, which suffices because each step consumes at least one
character. -/
def splitOnAux (s : Char) (sr : List Char) : Nat → List Char → List (List Char)
  | _, [] => [[]]
  | 0, _ :: _ => [[]]
  | fuel + 1, c :: cs =>
    if (s :: sr).isPrefixOf (c :: cs) then
      [] :: splitOnAux s sr fuel (cs.drop sr.length)
    else
      match splitOnAux s sr fuel cs with
      | [] => [[c]]
      | p :: ps => (c :: p) :: ps

/-- Python `str.split(sep)` for a non-empty separator, over char lists. -/
def splitOnL (s : Char) (sr : List Char) (l : List Char) : List (List Char) :=
  splitOnAux s sr l.length l

/-- Python `sep.join(pieces)` over char lists. -/
def joinWithL (sep : List Char) : List (List Char) → List Char
  | [] => []
  | [p] => p
  | p :: q :: r => p ++ sep ++ joinWithL sep (q :: r)

/-- `hay[:hay.find(n)]`: the part of `hay` before the first occurrence of
`n` (all of `hay` when `n` does not occur). -/
def truncList (n : List Char) : List Char → List Char
  | [] => []
  | c :: cs => if n.isPrefixOf (c :: cs) then [] else c :: truncList n cs

/-- The part of `hay` strictly after the first occurrence of `n`. -/
def dropThroughL (n : List Char) : List Char → List Char
  | [] => []
  | c :: cs => if n.isPrefixOf (c :: cs) then (c :: cs).drop n.length else dropThroughL n cs

/-- Python `needle in hay` over char lists: some suffix of `hay` starts
with `needle`. -/
def containsSub (hay needle : List Char) : Bool :=
  match hay with
  | [] => needle.isPrefixOf []
  | _ :: cs => needle.isPrefixOf hay || containsSub cs needle

/-- Python `str.strip()` over char lists. -/
def stripL (l : List Char) : List Char :=
  ((l.dropWhile pyWs).reverse.dropWhile pyWs).reverse

/-- Python `str.rstrip()` over char lists. -/
def rstripL (l : List Char) : List Char :=
  (l.reverse.dropWhile pyWs).reverse

/-- ASCII lower-casing of one character (`str.lower` restricted to the ASCII
range used by the interactive-command catalog). -/
def lowerChar (c : Char) : Char :=
  if 'A' ≤ c && c ≤ 'Z' then Char.ofNat (c.toNat + 32) else c

/-- Decimal value of a digit run; `none` if empty or a non-digit occurs. -/
def digitsValAux (acc : Nat) : List Char → Option Nat
  | [] => some acc
  | c :: cs => if c.isDigit then digitsValAux (acc * 10 + (c.toNat - 48)) cs else none

/-- Decimal value of a non-empty digit run. -/
def digitsVal : List Char → Option Nat
  | [] => none
  | l => digitsValAux 0 l

/-- Python `int(s)` on an already-stripped string: optional sign then
decimal digits; `none` models `ValueError`. -/
def pyInt (s : String) : Option Int :=
  match s.data with
  | '+' :: ds => (digitsVal ds).map fun n => (n : Int)
  | '-' :: ds => (digitsVal ds).map fun n => -(n : Int)
  | ds => (digitsVal ds).map fun n => (n : Int)

/-- Python `s.split(sep)` for a non-empty separator. -/
def pySplitOn (sep s : String) : List String :=
  match sep.data with
  | [] => [s]
  | c :: cs => (splitOnL c cs s.data).map fun p => ⟨p⟩

/-- Python `s.replace(pat, rep)` for a non-empty pattern. -/
def pyReplace (s pat rep : String) : String :=
  match pat.data with
  | [] => s
  | c :: cs => ⟨joinWithL rep.data (splitOnL c cs s.data)⟩

/-- Python `s.strip()`. -/
def pyStrip (s : String) : String := ⟨stripL s.data⟩

/-- Python `s.rstrip()`. -/
def pyRstrip (s : String) : String := ⟨rstripL s.data⟩

/-- Python `s.lower()` (ASCII). -/
def pyLower (s : String) : String := ⟨s.data.map lowerChar⟩

/-- Python `needle in hay`. -/
def pyIn (needle hay : String) : Bool := containsSub hay.data needle.data

/-- Python `s.startswith(pre)`. -/
def pyStartsWith (s pre : String) : Bool := pre.data.isPrefixOf s.data

/-- Python `s.endswith(suf)`. -/
def pyEndsWith (s suf : String) : Bool := suf.data.isSuffixOf s.data

/-- `hay[:hay.find(needle)]`. -/
def pyTruncBefore (hay needle : String) : String := ⟨truncList needle.data hay.data⟩

/-- `hay.split(needle)[1]`: the segment between the first occurrence of
`needle` and the following occurrence (or the end). -/
def pySplitSecond (hay needle : String) : String :=
  ⟨truncList needle.data (dropThroughL needle.data hay.data)⟩

/-- Python `s.splitlines()` for `\n` boundaries: split on `\n` and drop the
trailing empty piece produced by a final newline. -/
def pySplitLines (s : String) : List String :=
  let ps := splitOnL '\n' [] s.data
  let ps := if ps.getLast? = some [] then ps.dropLast else ps
  ps.map fun p => ⟨p⟩

/-- Python `"\n".join(lines)`. -/
def joinNl (ls : List String) : String := ⟨joinWithL ['\n'] (ls.map String.data)⟩

/-! ## The embedded shell code -/

/-- `_NOWAIT_CMDS = ("cd", "ls", "pwd")`. -/
def NOWAIT_CMDS : List String := ["cd", "ls", "pwd"]

/-- `_INTERACTIVE_COMMANDS`: the fixed catalog of interactive invocations. -/
def INTERACTIVE_COMMANDS : List String :=
  ["tail -f", "watch", "top", "htop", "less", "more", "vim", "nano", "vi"]

/-- `command_marker = f"__CMD_END_{self._id}_{cmd_hash}__"`. -/
def commandMarker (sid : String) (h : Int) : String :=
  "__CMD_END_" ++ sid ++ "_" ++ toString h ++ "__"

/-- `exit_marker = f"__EXIT_{cmd_hash}__"` (note: no session id). -/
def exitMarker (h : Int) : String :=
  "__EXIT_" ++ toString h ++ "__"

/-- `stderr_marker = f"__STDERR_END_{self._id}_{cmd_hash}__"`. -/
def stderrMarker (sid : String) (h : Int) : String :=
  "__STDERR_END_" ++ sid ++ "_" ++ toString h ++ "__"

/-- `HostShell.exec`: the marked command sent to the shell (`safe_cmd`
substitutes `"true"` for an empty command, then the exit-code echo, the
stdout end marker and the stderr end marker are appended in that order). -/
def markedCmd (cmd sid : String) (h : Int) : String :=
  (if cmd = "" then "true" else cmd) ++
  "; echo '" ++ exitMarker h ++ " '$?; " ++
  "echo '" ++ commandMarker sid h ++ "'; " ++
  "printf '" ++ stderrMarker sid h ++ "' > /dev/stderr"

/-- `Shell.sanitize_command`: `(cmd.rstrip() + "\n")`. -/
def pySanitize (cmd : String) : String := pyRstrip cmd ++ "\n"

/-- The exact text `HostShell._write` puts on the transport for a command. -/
def writtenTransport (cmd sid : String) (h : Int) : String :=
  pySanitize (markedCmd cmd sid h)

/-- First whitespace-delimited token of a string (`s.split()[0]`), or `""`
when there is none. -/
def firstTok (s : String) : String := ⟨(splitWsL s.data).headD []⟩

/-- `HostShell._is_interactive_command`: split on `&&` and `;`, trim and
lowercase each clause, and flag the command when some clause's first token
equals a catalog entry's first token and the clause starts with the full
catalog entry. -/
def isInteractiveCommand (cmd : String) : Bool :=
  (pySplitOn ";" (pyReplace cmd "&&" ";")).any fun sub =>
    let sc := pyStrip (pyLower sub)
    match splitWsL sc.data with
    | [] => false
    | t :: _ =>
      INTERACTIVE_COMMANDS.any fun ic =>
        decide ((⟨t⟩ : String) = firstTok ic) && pyStartsWith sc ic

/-- The `all(cmd.split()[0] in _NOWAIT_CMDS for cmd in commands)` generator
of `HostShell._has_command_exited`: evaluated left to right, stopping at the
first clause whose token is outside the allowlist; `.error ()` models the
`IndexError` raised by `[0]` on a clause with no tokens. -/
def allNowaitE : List String → Except Unit Bool
  | [] => .ok true
  | c :: rest =>
    match splitWsL c.data with
    | [] => .error ()
    | t :: _ => if NOWAIT_CMDS.contains (⟨t⟩ : String) then allNowaitE rest else .ok false

/-- The stripped `&&`-clauses of a command. -/
def clausesOf (cmd : String) : List String := (pySplitOn "&&" cmd).map pyStrip

/-- `HostShell._has_command_exited` as a function of the command and one
process-table snapshot (`ps -e -o args=` output).  All-allowlist commands
are assumed exited without consulting the snapshot (the `time.sleep(0.3)`
is not observable in the embedding); otherwise the snapshot's lines after
the first are scanned for a clause appearing verbatim or as a verbatim
prefix followed by a space. -/
def hasCommandExited (cmd psOutput : String) : Except Unit Bool :=
  match allNowaitE (clausesOf cmd) with
  | .error _ => .error ()
  | .ok true => .ok true
  | .ok false =>
    .ok (((pySplitLines psOutput).drop 1).all fun line =>
      !((clausesOf cmd).any fun c =>
        pyStrip line == c || pyStartsWith (pyStrip line) (c ++ " ")))

/-- Failure modes of `HostShell._read`, carrying the buffered partial
output (stdout buffer, stderr buffer). -/
inductive ReadError where
  | processExited (stdoutBuf stderrBuf : String)
  | readTimeout (stdoutBuf stderrBuf : String)
  deriving DecidableEq, Repr

/-- Rendering of the `{buffer}` interpolation in the two error messages.
The file-descriptor keys and Python's bytes-literal escaping are abstracted:
the raw buffered text is spliced in directly. -/
def bufferRepr (stdoutBuf stderrBuf : String) : String :=
  "\x7bstderr: " ++ stderrBuf ++ ", stdout: " ++ stdoutBuf ++ "\x7d"

/-- The messages of the `RuntimeError` / `TimeoutError` raised by
`HostShell._read`. -/
def readErrorMessage : ReadError → String
  | .processExited o e =>
    "Subprocess exited unexpectedly.\nCurrent buffer: " ++ bufferRepr o e
  | .readTimeout o e =>
    "Timeout reached while reading from subprocess.\nCurrent buffer: " ++ bufferRepr o e ++
    ". Note that interactive commands are not supported and can timeout. " ++
    "Use a corresponding non-interactive command if possible."

/-- Errors `HostShell.exec` can surface: the interactivity rejection, the
`IndexError` escaping `_has_command_exited`, and `_read`'s failures. -/
inductive ExecError where
  | interactive
  | indexError
  | read (e : ReadError)
  deriving DecidableEq, Repr

/-- The exit checks of `HostShell._read` after its polling loop: the
process-liveness check runs first (raising with the buffered output),
then, when the markers were never both found, the timeout error; on
success each buffer is truncated at the first occurrence of its marker.
`rawOut` / `rawErr` are the final buffered stream contents and
`processExited` the result of `self._process.poll()`. -/
def readCore (cm sm rawOut rawErr : String) (processExited : Bool) :
    Except ExecError (String × String) :=
  if processExited then .error (.read (.processExited rawOut rawErr))
  else if pyIn cm rawOut && pyIn sm rawErr then
    .ok (pyTruncBefore rawOut cm, pyTruncBefore rawErr sm)
  else .error (.read (.readTimeout rawOut rawErr))

/-- `HostShell._read` as called from `exec`: when `wait` is set the loop
first consults `_has_command_exited` (an `IndexError` there propagates; a
command that never reports exited leaves the buffers empty until the
timeout); otherwise, and once the command has exited, the loop drains the
streams and runs the exit checks of `readCore`. -/
def readLocal (cmd cm sm : String) (wait : Bool) (psOutput rawOut rawErr : String)
    (processExited : Bool) : Except ExecError (String × String) :=
  if wait ∧ cmd ≠ "" then
    match hasCommandExited cmd psOutput with
    | .error _ => .error .indexError
    | .ok false =>
      if processExited then .error (.read (.processExited "" ""))
      else .error (.read (.readTimeout "" ""))
    | .ok true => readCore cm sm rawOut rawErr processExited
  else readCore cm sm rawOut rawErr processExited

/-- The line loop of `HostShell.exec`'s exit-code extraction.  Each line
containing the marker overwrites the exit code with the parse of the text
after the marker and contributes its prefix before the marker; other lines
pass through.  A parse failure (`ValueError`) aborts the loop: the lines
accumulated so far (failing line excluded) become the output and the code
is 1. -/
def processLines (em : String) : List String → Int → List String →
    Except (List String) (List String × Int)
  | [], code, acc => .ok (acc.reverse, code)
  | l :: rest, code, acc =>
    if pyIn em l then
      match pyInt (pyStrip (pySplitSecond l em)) with
      | some n => processLines em rest n (pyTruncBefore l em :: acc)
      | none => .error acc.reverse
    else processLines em rest code (l :: acc)

/-- The list of output lines a `processLines` run produces, whether it
completed (`.ok`) or was aborted by a `ValueError` (`.error`). -/
def plOut : Except (List String) (List String × Int) → List String
  | .ok (ls, _) => ls
  | .error ls => ls

/-- The exit-code extraction of `HostShell.exec`: when the exit marker
occurs in the raw stdout, run the line loop (initial exit code 0) and join
the resulting lines with newlines. -/
def execPostProcessCore (em : String) (stdout : String) : String × Int :=
  if pyIn em stdout then
    match processLines em (pySplitLines stdout) 0 [] with
    | .ok (ls, c) => (joinNl ls, c)
    | .error ls => (joinNl ls, 1)
  else (stdout, 0)

/-- The full post-`_read` stdout processing of `HostShell.exec`: exit-code
extraction, then truncation at a stray `__EXIT` prefix left over from a
previously timed-out command. -/
def execPostProcess (em : String) (stdout : String) : String × Int :=
  let p := execPostProcessCore em stdout
  if pyIn "__EXIT" p.1 then (pyTruncBefore p.1 "__EXIT", p.2) else p

/-- The result dictionary of `exec`. -/
structure CommandResult where
  stdout : String
  stderr : String
  exit_code : Int
  deriving DecidableEq, Repr

/-- `HostShell.exec`: guard against interactive commands, build the
markers from the session id and the command hash, write the marked
command, read until the markers appear, then extract the exit code.  The
second component is the list of strings written to the transport, in
order (empty when the guard rejects the command before writing). -/
def execLocal (cmd sid : String) (h : Int) (wait : Bool)
    (psOutput rawOut rawErr : String) (processExited : Bool) :
    Except ExecError CommandResult × List String :=
  if isInteractiveCommand cmd then (.error .interactive, [])
  else
    match readLocal (if cmd = "" then "true" else cmd) (commandMarker sid h)
        (stderrMarker sid h) wait psOutput rawOut rawErr processExited with
    | .error e => (.error e, [writtenTransport cmd sid h])
    | .ok (so, se) =>
      (.ok ⟨(execPostProcess (exitMarker h) so).1, se,
            (execPostProcess (exitMarker h) so).2⟩,
       [writtenTransport cmd sid h])

/-! ## The remote (SSH) variant -/

/-- `SSHShell._sanitize_output`: split on CRLF, right-strip each line, drop
the first line (the echoed command), undo a leading CR, and remove the
development-environment banner. -/
def sanitizeOutput (output : String) : String :=
  let lines := (pySplitOn "\r\n" output).map pyRstrip
  let clean := joinNl (lines.drop 1)
  let clean := if pyStartsWith clean "\r" then ⟨clean.data.drop 1⟩ else clean
  pyReplace clean "(.dev)\n" ""

/-- `SSHShell._exit_status`: send `echo $?`, split the response on `\n`,
and parse the second line (the sole line when there is no newline),
stripped; a parse failure yields 1. -/
def sshExitStatus (response : String) : Int :=
  let output := pySplitOn "\n" response
  let tok :=
    match output with
    | [single] => single
    | _ => output.getD 1 ""
  (pyInt (pyStrip tok)).getD 1

/-- The result dictionary of `SSHShell.exec`.  The exit code field is a
string because the source wraps it in `str(...)`. -/
structure SSHResult where
  stdout : String
  stderr : String
  exit_code : String
  deriving DecidableEq, Repr

/-- `SSHShell.exec`: split the command on `" && "`, send each clause and
accumulate its sanitized output (`clauseReads` are the successive channel
reads), then query the exit status.  `stderr` is always empty and the exit
code is the string rendering of `_exit_status()`. -/
def sshExec (cmd : String) (clauseReads : List String) (statusResponse : String) :
    SSHResult :=
  let clauses := pySplitOn " && " cmd
  let outs := (clauses.zip clauseReads).map fun p => sanitizeOutput p.2
  { stdout := outs.foldl (· ++ ·) ""
    stderr := ""
    exit_code := toString (sshExitStatus statusResponse) }

/-- `SSHShell._wait`, skip condition: a clause skips polling when its first
space-token is in the allowlist or the clause contains no space at all
(`len(_rest) == 0`). -/
def sshWaitSkips (clause : String) : Bool :=
  match pySplitOn " " clause with
  | [] => true
  | c :: rest => NOWAIT_CMDS.contains c || rest.isEmpty

/-- `SSHShell._wait`, one snapshot of the polling loop: the wait is over
when no line of the remote `ps -eo command` output, stripped, ends with the
clause. -/
def sshWaitDone (clause psOutput : String) : Bool :=
  (pySplitOn "\n" psOutput).all fun line => !pyEndsWith (pyStrip line) clause

/-! ## The claims, stated from the specification's words -/

/-- Claim C1 as stated: a successful local `execute` returns stdout and
stderr containing no occurrence of any of the three markers generated for
the call. -/
def claimC1 : Prop :=
  ∀ (cmd sid : String) (h : Int) (wait : Bool)
    (psOutput rawOut rawErr : String) (pe : Bool)
    (r : CommandResult) (ws : List String),
    execLocal cmd sid h wait psOutput rawOut rawErr pe = (.ok r, ws) →
    pyIn (commandMarker sid h) r.stdout = false ∧
    pyIn (exitMarker h) r.stdout = false ∧
    pyIn (stderrMarker sid h) r.stdout = false ∧
    pyIn (commandMarker sid h) r.stderr = false ∧
    pyIn (exitMarker h) r.stderr = false ∧
    pyIn (stderrMarker sid h) r.stderr = false

/-- The matching rule of claim C2, stated from its words: some `&&`/`;`
clause, trimmed and lowercased, has a first whitespace token equal to the
first token of a catalog entry and starts with the full entry. -/
def c2Matches (cmd : String) : Prop :=
  ∃ sub ∈ pySplitOn ";" (pyReplace cmd "&&" ";"),
    ∃ t ts, splitWsL (pyStrip (pyLower sub)).data = t :: ts ∧
      ∃ ic ∈ INTERACTIVE_COMMANDS,
        (⟨t⟩ : String) = firstTok ic ∧ pyStartsWith (pyStrip (pyLower sub)) ic = true

/-- Claim C3's exit code: integer parse of the token after the marker on
the **first** line containing the marker, defaulting to 1 on failure. -/
def c3FirstLineCode (em raw : String) : Int :=
  match (pySplitLines raw).find? (fun l => pyIn em l) with
  | some l => (pyInt (pyStrip (pySplitSecond l em))).getD 1
  | none => 0

/-- Claim C3's stdout: the marker lines are removed entirely. -/
def c3RemovedStdout (em raw : String) : String :=
  joinNl ((pySplitLines raw).filter fun l => !pyIn em l)

/-- Claim C3 as stated: when the raw stdout contains the exit marker, the
extraction yields the first matching line's parsed code and removes the
matching lines entirely. -/
def claimC3 : Prop :=
  ∀ em raw, pyIn em raw = true →
    execPostProcess em raw = (c3RemovedStdout em raw, c3FirstLineCode em raw)

/-- The amended C3 stdout: each marker line is replaced by its text before
the marker; other lines pass through. -/
def c3AmendedStdout (em raw : String) : String :=
  joinNl ((pySplitLines raw).map fun l => if pyIn em l then pyTruncBefore l em else l)

/-- The amended C3 exit code: the parse of the **last** marker line
overwrites earlier ones, starting from 0. -/
def c3AmendedCode (em raw : String) : Int :=
  (pySplitLines raw).foldl
    (fun acc l => if pyIn em l then (pyInt (pyStrip (pySplitSecond l em))).getD acc else acc) 0

/-- A line on which the amended C3 extraction fails: it contains the
marker but the token after the marker does not parse as an integer. -/
def c3LineFails (em l : String) : Bool :=
  pyIn em l && (pyInt (pyStrip (pySplitSecond l em))).isNone

/-- The amended C3 stdout in the parse-failure case: only the lines before
the first failing line survive (each marker line among them replaced by
its text before the marker); the failing line and everything after it are
dropped. -/
def c3FailAdjusted (em raw : String) : String :=
  joinNl (((pySplitLines raw).takeWhile fun l => !c3LineFails em l).map
    fun l => if pyIn em l then pyTruncBefore l em else l)

/-- The final truncation applied to the stdout returned to the caller:
cut at a stray `__EXIT` remnant when one is present. -/
def c3Trunc (s : String) : String :=
  if pyIn "__EXIT" s then pyTruncBefore s "__EXIT" else s

/-- The amended C3 behaviour of the full post-`_read` stdout processing:
when the raw stdout contains the exit marker, either every marker line
parses — the last parse wins and each marker line is replaced by its
pre-marker text — or the first parse failure yields exit code 1 and drops
the failing line and all following lines; in both cases the returned
stdout is finally truncated at any stray `__EXIT` remnant. -/
def c3AmendedResult (em raw : String) : String × Int :=
  if pyIn em raw then
    if (pySplitLines raw).all fun l => !c3LineFails em l then
      (c3Trunc (c3AmendedStdout em raw), c3AmendedCode em raw)
    else
      (c3Trunc (c3FailAdjusted em raw), 1)
  else (raw, 0)

/-- Claim C4's exit code: parse of the last non-empty line of the
status-query response, defaulting to 1. -/
def c4LastNonEmptyExit (response : String) : Int :=
  match ((pySplitOn "\n" response).filter fun l => l ≠ "").getLast? with
  | some l => (pyInt (pyStrip l)).getD 1
  | none => 1

/-- Claim C4 as stated for the remote variant's status parsing. -/
def claimC4 : Prop := ∀ response, sshExitStatus response = c4LastNonEmptyExit response

/-- The amended C4 exit-status rule: parse the second line of the
newline-split response, or the sole line when the response has no newline,
defaulting to 1. -/
def c4AmendedExit (response : String) : Int :=
  let output := pySplitOn "\n" response
  let tok := if output.length = 1 then output.headD "" else output.getD 1 ""
  (pyInt (pyStrip tok)).getD 1

/-- Claim C5 as stated: every one of the three markers is built from the
session id (together with a fixed prefix and the hash), so in particular
each contains the session id. -/
def claimC5 : Prop :=
  ∀ (sid : String) (h : Int),
    pyIn sid (commandMarker sid h) = true ∧
    pyIn sid (stderrMarker sid h) = true ∧
    pyIn sid (exitMarker h) = true

/-- Claim C6's fast path: every `&&`-clause's first token is in the
allowlist. -/
def c6Fast (cmd : String) : Bool :=
  (clausesOf cmd).all fun c => NOWAIT_CMDS.contains (firstTok c)

/-- Claim C6's snapshot rule: no process line (header excluded), stripped,
equals a clause or extends one with further arguments. -/
def c6Snapshot (cmd psOutput : String) : Bool :=
  ((pySplitLines psOutput).drop 1).all fun line =>
    !((clausesOf cmd).any fun c =>
      pyStrip line == c || pyStartsWith (pyStrip line) (c ++ " "))

/-- Claim C6 as stated: the completion check always returns a boolean,
decided by the fast path or else the snapshot rule. -/
def claimC6 : Prop :=
  ∀ cmd ps, hasCommandExited cmd ps = .ok (if c6Fast cmd then true else c6Snapshot cmd ps)

/-- Claim C9 as stated: a remote clause skips polling exactly when its
first space-token is in the allowlist. -/
def claimC9 : Prop :=
  ∀ clause, sshWaitSkips clause = NOWAIT_CMDS.contains ((pySplitOn " " clause).headD "")

/-- A command has an empty (stripped) `&&`-clause. -/
def hasEmptyClause (cmd : String) : Prop := "" ∈ clausesOf cmd

/-- Claim C10 as stated: every waiting local `execute` of a command with an
empty `&&`-clause fails with the `IndexError`. -/
def claimC10 : Prop :=
  ∀ cmd, hasEmptyClause cmd →
    ∀ (sid : String) (h : Int) (psOutput rawOut rawErr : String) (pe : Bool),
      (execLocal cmd sid h true psOutput rawOut rawErr pe).1 = .error .indexError

/-- The amended C10 condition: walking the stripped `&&`-clauses from the
left, a blank clause (one with no whitespace tokens) is reached before any
clause whose first token is outside the allowlist. -/
def reachesEmptyClause (cmd : String) : Prop :=
  ∃ pre b post, clausesOf cmd = pre ++ b :: post ∧ splitWsL b.data = [] ∧
    ∀ c ∈ pre, ∃ t ts, splitWsL c.data = t :: ts ∧
      NOWAIT_CMDS.contains (⟨t⟩ : String) = true

/-! ## Basic facts about the string primitives -/

theorem data_append (s t : String) : (s ++ t).data = s.data ++ t.data := rfl

theorem mk_data (s : String) : (⟨s.data⟩ : String) = s := rfl

theorem nil_pre {α : Type} (l : List α) : [] <+: l := ⟨l, rfl⟩

theorem pre_inf {α : Type} {l₁ l₂ : List α} (h : l₁ <+: l₂) : l₁ <:+: l₂ := by
  obtain ⟨t, ht⟩ := h
  exact ⟨[], t, by simpa using ht⟩

theorem suf_inf {α : Type} {l₁ l₂ : List α} (h : l₁ <:+ l₂) : l₁ <:+: l₂ := by
  obtain ⟨s, hs⟩ := h
  exact ⟨s, [], by simpa using hs⟩

theorem prefOf_iff {l₁ l₂ : List Char} : l₁.isPrefixOf l₂ = true ↔ l₁ <+: l₂ :=
  List.isPrefixOf_iff_prefix

theorem contains_iff (hay needle : List Char) :
    containsSub hay needle = true ↔ needle <:+: hay := by
  induction hay with
  | nil => simp [containsSub, prefOf_iff, List.infix_nil, List.prefix_nil]
  | cons c cs ih =>
    rw [containsSub, Bool.or_eq_true, prefOf_iff, ih, List.infix_cons_iff]

theorem not_contains_iff {hay needle : List Char} :
    containsSub hay needle = false ↔ ¬ needle <:+: hay := by
  rw [Bool.eq_false_iff, Ne, contains_iff]

theorem truncList_pre (n l : List Char) : truncList n l <+: l := by
  induction l with
  | nil => exact nil_pre []
  | cons c cs ih =>
    rw [truncList]
    split
    · exact nil_pre _
    · exact List.cons_prefix_cons.mpr ⟨rfl, ih⟩

theorem truncList_not_contains {n : List Char} (hn : n ≠ []) (l : List Char) :
    containsSub (truncList n l) n = false := by
  induction l with
  | nil =>
    rw [truncList, not_contains_iff, List.infix_nil]
    exact hn
  | cons c cs ih =>
    rw [truncList]
    split
    · rw [not_contains_iff, List.infix_nil]
      exact hn
    · rename_i hpre
      rw [not_contains_iff, List.infix_cons_iff]
      rintro (hp | hi)
      · exact hpre (prefOf_iff.mpr
          (hp.trans (List.cons_prefix_cons.mpr ⟨rfl, truncList_pre n cs⟩)))
      · exact not_contains_iff.mp ih hi

theorem not_contains_of_pre {n t l : List Char} (ht : t <+: l)
    (h : containsSub l n = false) : containsSub t n = false := by
  rw [not_contains_iff] at h ⊢
  exact fun hc => h (hc.trans (pre_inf ht))

theorem not_contains_of_inf {n t l : List Char} (ht : t <:+: l)
    (h : containsSub l n = false) : containsSub t n = false := by
  rw [not_contains_iff] at h ⊢
  exact fun hc => h (hc.trans ht)

theorem not_contains_of_needle_pre {n m l : List Char} (hmn : m <+: n)
    (h : containsSub l m = false) : containsSub l n = false := by
  rw [not_contains_iff] at h ⊢
  exact fun hc => h ((pre_inf hmn).trans hc)

theorem inf_sep_split {n xs ys : List Char} {sep : Char} (hsep : sep ∉ n)
    (h : n <:+: xs ++ sep :: ys) : n <:+: xs ∨ n <:+: ys := by
  obtain ⟨s, t, hst⟩ := h
  rw [List.append_assoc] at hst
  rcases List.append_eq_append_iff.mp hst with ⟨a, ha, hb⟩ | ⟨c, hc, hd⟩
  · rcases List.append_eq_append_iff.mp hb with ⟨b, hb1, hb2⟩ | ⟨c, hc1, hc2⟩
    · exact Or.inl ⟨s, b, by rw [ha, hb1, List.append_assoc]⟩
    · cases c with
      | nil =>
        rw [List.append_nil] at hc1
        exact Or.inl ⟨s, [], by rw [ha, ← hc1, List.append_nil]⟩
      | cons d c' =>
        rw [List.cons_append] at hc2
        injection hc2 with h1 _
        exact absurd (by rw [hc1, ← h1]; simp : sep ∈ n) hsep
  · cases c with
    | nil =>
      rw [List.nil_append] at hd
      cases n with
      | nil => exact Or.inl (pre_inf (nil_pre xs))
      | cons e n' =>
        rw [List.cons_append] at hd
        injection hd with h1 _
        exact absurd (by rw [← h1]; simp : sep ∈ e :: n') hsep
    | cons d c' =>
      rw [List.cons_append] at hd
      injection hd with _ h2
      exact Or.inr ⟨c', t, by rw [h2, List.append_assoc]⟩

theorem not_contains_joinWith {n : List Char} {sep : Char} (hn : n ≠ []) (hsep : sep ∉ n) :
    ∀ ps : List (List Char), (∀ p ∈ ps, ¬ n <:+: p) → ¬ n <:+: joinWithL [sep] ps
  | [], _, h => hn (List.infix_nil.mp h)
  | [p], hp, h => hp p (by simp) h
  | p :: q :: r, hp, h => by
    rw [joinWithL, List.append_assoc, List.singleton_append] at h
    rcases inf_sep_split hsep h with h1 | h2
    · exact hp p (by simp) h1
    · exact not_contains_joinWith hn hsep (q :: r) (fun x hx => hp x (by simp [hx])) h2

theorem splitOnAux_struct (s : Char) (sr : List Char) :
    ∀ (fuel : Nat) (l : List Char), ∃ p0 ps, splitOnAux s sr fuel l = p0 :: ps ∧
      p0 <+: l ∧ ∀ p ∈ ps, p <:+: l
  | fuel, [] => ⟨[], [], by cases fuel <;> rfl, nil_pre [], by simp⟩
  | 0, c :: cs => ⟨[], [], rfl, nil_pre _, by simp⟩
  | fuel + 1, c :: cs => by
    by_cases hp : (s :: sr).isPrefixOf (c :: cs)
    · obtain ⟨p0, ps, heq, hpre, hinf⟩ := splitOnAux_struct s sr fuel (cs.drop sr.length)
      have hdrop : cs.drop sr.length <:+: c :: cs :=
        suf_inf ((List.drop_suffix _ _).trans (List.suffix_cons c cs))
      refine ⟨[], p0 :: ps, ?_, nil_pre _, ?_⟩
      · rw [splitOnAux, if_pos hp, heq]
      · intro p hmem
        rcases List.mem_cons.mp hmem with rfl | hmem
        · exact (pre_inf hpre).trans hdrop
        · exact (hinf p hmem).trans hdrop
    · obtain ⟨p0, ps, heq, hpre, hinf⟩ := splitOnAux_struct s sr fuel cs
      refine ⟨c :: p0, ps, ?_, List.cons_prefix_cons.mpr ⟨rfl, hpre⟩, ?_⟩
      · rw [splitOnAux, if_neg hp, heq]
      · intro p hmem
        exact (hinf p hmem).trans (suf_inf (List.suffix_cons c cs))

theorem splitOnAux_mem_inf {s : Char} {sr : List Char} {fuel : Nat} {l : List Char}
    {p : List Char} (hp : p ∈ splitOnAux s sr fuel l) : p <:+: l := by
  obtain ⟨p0, ps, heq, hpre, hinf⟩ := splitOnAux_struct s sr fuel l
  rw [heq] at hp
  rcases List.mem_cons.mp hp with rfl | hp
  · exact pre_inf hpre
  · exact hinf p hp

theorem splitOnAux_ne_nil (s : Char) (sr : List Char) (fuel : Nat) (l : List Char) :
    splitOnAux s sr fuel l ≠ [] := by
  obtain ⟨p0, ps, heq, _, _⟩ := splitOnAux_struct s sr fuel l
  rw [heq]
  exact List.cons_ne_nil p0 ps

theorem pySplitOn_ne_nil (sep s : String) : pySplitOn sep s ≠ [] := by
  unfold pySplitOn
  split
  · exact List.cons_ne_nil s []
  · rename_i c cs _
    intro hmap
    exact splitOnAux_ne_nil c cs _ _ (List.map_eq_nil_iff.mp hmap)

theorem pySplitLines_mem_inf {s l : String} (hl : l ∈ pySplitLines s) :
    l.data <:+: s.data := by
  unfold pySplitLines at hl
  simp only at hl
  obtain ⟨q, hq, rfl⟩ := List.mem_map.mp hl
  have hq' : q ∈ splitOnL '\n' [] s.data := by
    revert hq
    split
    · exact fun hq => List.dropLast_subset _ hq
    · exact id
  exact splitOnAux_mem_inf hq'

theorem processLines_mem (em : String) :
    ∀ (lines : List String) (code : Int) (acc : List String) (x : String),
      x ∈ plOut (processLines em lines code acc) →
      x ∈ acc ∨ ∃ l ∈ lines, x = l ∨ x = pyTruncBefore l em
  | [], code, acc, x, hx => by
    rw [processLines, plOut] at hx
    exact Or.inl (List.mem_reverse.mp hx)
  | l :: rest, code, acc, x, hx => by
    rw [processLines] at hx
    split at hx
    · rename_i hin
      cases hparse : pyInt (pyStrip (pySplitSecond l em)) with
      | some n =>
        rw [hparse] at hx
        rcases processLines_mem em rest n (pyTruncBefore l em :: acc) x hx with hacc | ⟨l', hl', hx'⟩
        · rcases List.mem_cons.mp hacc with rfl | hacc
          · exact Or.inr ⟨l, by simp, Or.inr rfl⟩
          · exact Or.inl hacc
        · exact Or.inr ⟨l', by simp [hl'], hx'⟩
      | none =>
        rw [hparse] at hx
        rw [plOut] at hx
        exact Or.inl (List.mem_reverse.mp hx)
    · rcases processLines_mem em rest code (l :: acc) x hx with hacc | ⟨l', hl', hx'⟩
      · rcases List.mem_cons.mp hacc with rfl | hacc
        · exact Or.inr ⟨x, by simp, Or.inl rfl⟩
        · exact Or.inl hacc
      · exact Or.inr ⟨l', by simp [hl'], hx'⟩

theorem joinNl_not_contains {n : List Char} (hn : n ≠ []) (hnl : '\n' ∉ n)
    {ls : List String} (hls : ∀ x ∈ ls, containsSub x.data n = false) :
    containsSub (joinNl ls).data n = false := by
  rw [not_contains_iff]
  refine not_contains_joinWith hn hnl (ls.map String.data) ?_
  intro q hq
  obtain ⟨x, hx, rfl⟩ := List.mem_map.mp hq
  exact not_contains_iff.mp (hls x hx)

theorem execPostProcessCore_not_contains {n : List Char} {em so : String}
    (hn : n ≠ []) (hnl : '\n' ∉ n)
    (hso : containsSub so.data n = false) :
    containsSub (execPostProcessCore em so).1.data n = false := by
  unfold execPostProcessCore
  split
  · have hline : ∀ x ∈ plOut (processLines em (pySplitLines so) 0 []),
        containsSub x.data n = false := by
      intro x hx
      rcases processLines_mem em (pySplitLines so) 0 [] x hx with hacc | ⟨l, hl, hx'⟩
      · exact absurd hacc (List.not_mem_nil x)
      · have hld : containsSub l.data n = false :=
          not_contains_of_inf (pySplitLines_mem_inf hl) hso
        rcases hx' with rfl | rfl
        · exact hld
        · exact not_contains_of_pre (truncList_pre _ _) hld
    cases hpl : processLines em (pySplitLines so) 0 [] with
    | ok pr =>
      obtain ⟨ls, c⟩ := pr
      have : ∀ x ∈ ls, containsSub x.data n = false := by
        intro x hx
        exact hline x (by rw [hpl]; exact hx)
      exact joinNl_not_contains hn hnl this
    | error ls =>
      have : ∀ x ∈ ls, containsSub x.data n = false := by
        intro x hx
        exact hline x (by rw [hpl]; exact hx)
      exact joinNl_not_contains hn hnl this
  · exact hso

theorem execPostProcess_not_contains {n : List Char} {em so : String}
    (hn : n ≠ []) (hnl : '\n' ∉ n)
    (hso : containsSub so.data n = false) :
    containsSub (execPostProcess em so).1.data n = false := by
  unfold execPostProcess
  simp only
  split
  · exact not_contains_of_pre (truncList_pre _ _)
      (execPostProcessCore_not_contains hn hnl hso)
  · exact execPostProcessCore_not_contains hn hnl hso

theorem execPostProcess_no_exit (em so : String) :
    containsSub (execPostProcess em so).1.data ("__EXIT" : String).data = false := by
  unfold execPostProcess
  simp only
  split
  · exact truncList_not_contains (by decide) _
  · rename_i hnin
    exact Bool.not_eq_true _ ▸ (by simpa [pyIn] using hnin)

theorem exitMarker_has_exit_pre (h : Int) :
    ("__EXIT" : String).data <+: (exitMarker h).data :=
  ⟨'_' :: ((toString h).data ++ ("__" : String).data), rfl⟩

theorem commandMarker_ne_nil (sid : String) (h : Int) : (commandMarker sid h).data ≠ [] := by
  show ('_' :: _) ≠ []
  exact List.cons_ne_nil _ _

theorem stderrMarker_ne_nil (sid : String) (h : Int) : (stderrMarker sid h).data ≠ [] := by
  show ('_' :: _) ≠ []
  exact List.cons_ne_nil _ _

theorem readCore_ok_inv {cm sm ro re : String} {pe : Bool} {so se : String}
    (h : readCore cm sm ro re pe = .ok (so, se)) :
    so = pyTruncBefore ro cm ∧ se = pyTruncBefore re sm ∧
    pyIn cm ro = true ∧ pyIn sm re = true ∧ pe = false := by
  unfold readCore at h
  split at h
  · exact absurd h (by simp)
  · rename_i hpe
    split at h
    · rename_i hmk
      rw [Bool.and_eq_true] at hmk
      obtain ⟨h1, h2⟩ := hmk
      obtain ⟨rfl, rfl⟩ := Prod.mk.injEq .. ▸ Except.ok.inj h
      exact ⟨rfl, rfl, h1, h2, Bool.of_not_eq_true hpe⟩
    · exact absurd h (by simp)

theorem readLocal_ok_inv {cmd cm sm : String} {wait : Bool} {ps ro re : String}
    {pe : Bool} {so se : String}
    (h : readLocal cmd cm sm wait ps ro re pe = .ok (so, se)) :
    so = pyTruncBefore ro cm ∧ se = pyTruncBefore re sm := by
  unfold readLocal at h
  split at h
  · split at h
    · exact absurd h (by simp)
    · split at h <;> exact absurd h (by simp)
    · obtain ⟨h1, h2, _⟩ := readCore_ok_inv h
      exact ⟨h1, h2⟩
  · obtain ⟨h1, h2, _⟩ := readCore_ok_inv h
    exact ⟨h1, h2⟩

theorem readCore_error_is_read {cm sm ro re : String} {pe : Bool} {x : ExecError}
    (h : readCore cm sm ro re pe = .error x) : ∃ rerr, x = ExecError.read rerr := by
  unfold readCore at h
  split at h
  · exact ⟨_, (Except.error.inj h).symm⟩
  · split at h
    · exact absurd h (by simp)
    · exact ⟨_, (Except.error.inj h).symm⟩

theorem readLocal_ne_interactive_error (cmd cm sm : String) (wait : Bool)
    (ps ro re : String) (pe : Bool) :
    readLocal cmd cm sm wait ps ro re pe ≠ .error .interactive := by
  intro hc
  unfold readLocal at hc
  split at hc
  · split at hc
    · exact absurd (Except.error.inj hc) (by simp)
    · split at hc <;> exact absurd (Except.error.inj hc) (by simp)
    · obtain ⟨rerr, hr⟩ := readCore_error_is_read hc
      exact absurd hr (by simp)
  · obtain ⟨rerr, hr⟩ := readCore_error_is_read hc
    exact absurd hr (by simp)

/-! ## Claim C1 -/

/-- C1, counterexample: the claim that a successful local `execute` strips
*all three* markers from *both* returned streams is false.  A command whose
stdout stream carries the stderr-end marker text before the command-end
marker returns successfully with that stderr-end marker still inside
`stdout`: the code only truncates stdout at the command-end marker and
removes exit-marker text from it. -/
theorem c1_counterexample : ¬ claimC1 := fun hall => by
  have hc := hall "echo hi" "s" 0 false ""
    "A__STDERR_END_s_0__\n__EXIT_0__ 0\n__CMD_END_s_0__\n" "__STDERR_END_s_0__" false
    ⟨"A__STDERR_END_s_0__\n", "", 0⟩ [writtenTransport "echo hi" "s" 0] (by decide)
  exact absurd hc.2.2.1 (by decide)

/-- C1, amended: for every local `execute` call that returns successfully,
the returned stdout contains no occurrence of the command-end marker and
none of the exit-code marker (indeed none of the `__EXIT` prefix), and the
returned stderr contains no occurrence of the stderr-end marker.  A marker
aimed at the *other* stream is not stripped: stdout may retain stderr-end
marker text and stderr may retain command-end or exit-code marker text if
the command itself emitted them.  (The hypothesis that the command-end
marker contains no newline holds for the generated session ids.) -/
theorem c1_amended (cmd sid : String) (h : Int) (wait : Bool)
    (psOutput rawOut rawErr : String) (pe : Bool)
    (r : CommandResult) (ws : List String)
    (hnl : '\n' ∉ (commandMarker sid h).data)
    (hok : execLocal cmd sid h wait psOutput rawOut rawErr pe = (.ok r, ws)) :
    pyIn (commandMarker sid h) r.stdout = false ∧
    pyIn (exitMarker h) r.stdout = false ∧
    pyIn (stderrMarker sid h) r.stderr = false := by
  unfold execLocal at hok
  split at hok
  · exact absurd hok (by simp)
  · cases hread : readLocal (if cmd = "" then "true" else cmd) (commandMarker sid h)
        (stderrMarker sid h) wait psOutput rawOut rawErr pe with
    | error e =>
      rw [hread] at hok
      exact absurd hok (by simp)
    | ok pr =>
      obtain ⟨so, se⟩ := pr
      rw [hread] at hok
      injection hok with hfst _
      have hr := Except.ok.inj hfst
      obtain ⟨hso, hse⟩ := readLocal_ok_inv hread
      subst hr
      refine ⟨?_, ?_, ?_⟩
      · show containsSub (execPostProcess (exitMarker h) so).1.data
            (commandMarker sid h).data = false
        refine execPostProcess_not_contains (commandMarker_ne_nil sid h) hnl ?_
        rw [hso]
        exact truncList_not_contains (commandMarker_ne_nil sid h) _
      · show containsSub (execPostProcess (exitMarker h) so).1.data
            (exitMarker h).data = false
        exact not_contains_of_needle_pre (exitMarker_has_exit_pre h)
          (execPostProcess_no_exit (exitMarker h) so)
      · show containsSub se.data (stderrMarker sid h).data = false
        rw [hse]
        exact truncList_not_contains (stderrMarker_ne_nil sid h) _

/-- C1, witness: the amended theorem applied to a concrete successful call
(`echo hi` with well-formed stream contents). -/
theorem c1_amended_witness :
    pyIn (commandMarker "s" 0) "hi\n" = false ∧
    pyIn (exitMarker 0) "hi\n" = false ∧
    pyIn (stderrMarker "s" 0) "" = false :=
  c1_amended "echo hi" "s" 0 false "" "hi\n__EXIT_0__ 0\n__CMD_END_s_0__\n"
    "__STDERR_END_s_0__" false ⟨"hi\n", "", 0⟩ [writtenTransport "echo hi" "s" 0]
    (by decide) (by decide)

/-! ## Claim C2 -/

theorem isInteractive_iff (cmd : String) :
    isInteractiveCommand cmd = true ↔ c2Matches cmd := by
  unfold isInteractiveCommand c2Matches
  rw [List.any_eq_true]
  constructor
  · rintro ⟨sub, hsub, hb⟩
    refine ⟨sub, hsub, ?_⟩
    simp only at hb
    cases hsp : splitWsL (pyStrip (pyLower sub)).data with
    | nil =>
      rw [hsp] at hb
      exact absurd hb (by simp)
    | cons t ts =>
      rw [hsp] at hb
      simp only [List.any_eq_true] at hb
      obtain ⟨ic, hic, hbc⟩ := hb
      rw [Bool.and_eq_true, decide_eq_true_eq] at hbc
      exact ⟨t, ts, rfl, ic, hic, hbc.1, hbc.2⟩
  · rintro ⟨sub, hsub, t, ts, hts, ic, hic, h1, h2⟩
    refine ⟨sub, hsub, ?_⟩
    simp only
    rw [hts]
    simp only [List.any_eq_true]
    exact ⟨ic, hic, by rw [Bool.and_eq_true, decide_eq_true_eq]; exact ⟨h1, h2⟩⟩

/-- C2: `exec` fails with the interactivity rejection, before anything is
written to the transport, exactly when some `&&`/`;` clause of the command,
trimmed and lowercased, has a first whitespace token equal to a catalog
entry's first token and starts with that full catalog entry; otherwise
nothing is raised by the guard and the marked command is written. -/
theorem c2_guard (cmd sid : String) (h : Int) (wait : Bool)
    (psOutput rawOut rawErr : String) (pe : Bool) :
    ((execLocal cmd sid h wait psOutput rawOut rawErr pe).1 = .error .interactive ↔
      c2Matches cmd) ∧
    (c2Matches cmd → (execLocal cmd sid h wait psOutput rawOut rawErr pe).2 = []) ∧
    (¬ c2Matches cmd →
      (execLocal cmd sid h wait psOutput rawOut rawErr pe).2 = [writtenTransport cmd sid h]) := by
  by_cases hi : isInteractiveCommand cmd = true
  · have hm : c2Matches cmd := (isInteractive_iff cmd).mp hi
    unfold execLocal
    rw [if_pos hi]
    exact ⟨⟨fun _ => hm, fun _ => rfl⟩, fun _ => rfl, fun hnm => absurd hm hnm⟩
  · have hm : ¬ c2Matches cmd := fun hmm => hi ((isInteractive_iff cmd).mpr hmm)
    unfold execLocal
    rw [if_neg hi]
    refine ⟨⟨?_, fun hmm => absurd hmm hm⟩, fun hmm => absurd hmm hm, fun _ => ?_⟩
    · intro habs
      cases hread : readLocal (if cmd = "" then "true" else cmd) (commandMarker sid h)
          (stderrMarker sid h) wait psOutput rawOut rawErr pe with
      | error e =>
        rw [hread] at habs
        exact absurd (Except.error.inj habs)
          (by rintro rfl
              exact readLocal_ne_interactive_error _ _ _ _ _ _ _ _ hread)
      | ok pr =>
        obtain ⟨so, se⟩ := pr
        rw [hread] at habs
        exact absurd habs (by simp)
    · cases hread : readLocal (if cmd = "" then "true" else cmd) (commandMarker sid h)
          (stderrMarker sid h) wait psOutput rawOut rawErr pe with
      | error e => rfl
      | ok pr =>
        obtain ⟨so, se⟩ := pr
        rfl

/-- C2, witness: the guard theorem applied to the concrete command
`top && ls`, which matches the catalog, so `exec` rejects it with nothing
written. -/
theorem c2_guard_witness :
    (execLocal "top && ls" "s" 0 true "" "" "" false).1 = .error .interactive ∧
    (execLocal "top && ls" "s" 0 true "" "" "" false).2 = [] := by
  have hg := c2_guard "top && ls" "s" 0 true "" "" "" false
  have hm : c2Matches "top && ls" :=
    ⟨"top ", by decide, ['t', 'o', 'p'], [], by decide, "top", by decide, by decide, by decide⟩
  exact ⟨hg.1.mpr hm, hg.2.1 hm⟩

/-! ## Claim C3 -/

/-- C3, counterexample: the extraction does not take the exit code from the
*first* marker line, and does not remove marker lines *entirely*.  On a raw
stdout with two marker lines carrying different codes and text before the
marker, the code keeps each line's pre-marker text and reports the last
line's code: the result is `("abc\nx", 7)`, not the claimed `("", 5)`. -/
theorem c3_counterexample : ¬ claimC3 := fun hall =>
  absurd (hall "__EXIT_0__" "abc__EXIT_0__ 5\nx__EXIT_0__ 7" (by decide)) (by decide)

theorem processLines_spec (em : String) :
    ∀ (lines : List String) (code : Int) (acc : List String),
      processLines em lines code acc =
        if lines.all (fun l => !c3LineFails em l) then
          .ok (acc.reverse ++ lines.map (fun l => if pyIn em l then pyTruncBefore l em else l),
            lines.foldl
              (fun a l => if pyIn em l then (pyInt (pyStrip (pySplitSecond l em))).getD a else a)
              code)
        else
          .error (acc.reverse ++
            (lines.takeWhile (fun l => !c3LineFails em l)).map
              (fun l => if pyIn em l then pyTruncBefore l em else l))
  | [], code, acc => by simp [processLines]
  | l :: rest, code, acc => by
    rw [processLines]
    by_cases hin : pyIn em l = true
    · cases hparse : pyInt (pyStrip (pySplitSecond l em)) with
      | some n =>
        have hfail : c3LineFails em l = false := by
          rw [c3LineFails, hin, hparse]
          rfl
        rw [if_pos hin]
        refine (processLines_spec em rest n (pyTruncBefore l em :: acc)).trans ?_
        cases hall : rest.all (fun l => !c3LineFails em l) with
        | true => simp [List.all_cons, hfail, hall, hin, hparse, List.foldl_cons]
        | false => simp [List.all_cons, hfail, hall, hin, List.takeWhile_cons]
      | none =>
        have hfail : c3LineFails em l = true := by
          rw [c3LineFails, hin, hparse]
          rfl
        rw [if_pos hin]
        simp [List.all_cons, hfail, List.takeWhile_cons]
    · have hin' : pyIn em l = false := Bool.eq_false_iff.mpr hin
      have hfail : c3LineFails em l = false := by
        rw [c3LineFails, hin']
        rfl
      rw [if_neg hin]
      refine (processLines_spec em rest code (l :: acc)).trans ?_
      cases hall : rest.all (fun l => !c3LineFails em l) with
      | true => simp [List.all_cons, hfail, hall, hin', List.foldl_cons]
      | false => simp [List.all_cons, hfail, hall, hin', List.takeWhile_cons]

theorem execPostProcess_def (em raw : String) :
    execPostProcess em raw =
      if pyIn "__EXIT" (execPostProcessCore em raw).1 then
        (pyTruncBefore (execPostProcessCore em raw).1 "__EXIT",
         (execPostProcessCore em raw).2)
      else execPostProcessCore em raw := rfl

/-- C3, amended: when the raw stdout from the reader contains the exit-code
marker, the stdout returned to the caller and the exit code are as follows.
If every marker line's trailing token parses as an integer, the exit code
is the parse of the **last** marker line (each successful parse overwrites
the previous, starting from 0) — not the first — and each marker line is
replaced by its text before the marker rather than removed, leaving a
(possibly empty) line.  Otherwise the first parse failure yields exit code
1 and drops the failing line and all following lines.  In both cases the
returned stdout is finally truncated at any stray `__EXIT` remnant. -/
theorem c3_amended (em raw : String) (hin : pyIn em raw = true) :
    execPostProcess em raw = c3AmendedResult em raw := by
  rw [execPostProcess_def]
  unfold c3AmendedResult
  rw [if_pos hin]
  cases hall : (pySplitLines raw).all fun l => !c3LineFails em l with
  | true =>
    have hcore : execPostProcessCore em raw =
        (c3AmendedStdout em raw, c3AmendedCode em raw) := by
      unfold execPostProcessCore
      rw [if_pos hin, processLines_spec, hall]
      simp [c3AmendedStdout, c3AmendedCode]
    rw [hcore]
    cases hex : pyIn "__EXIT" (c3AmendedStdout em raw) with
    | true => simp [c3Trunc, hex]
    | false => simp [c3Trunc, hex]
  | false =>
    have hcore : execPostProcessCore em raw = (c3FailAdjusted em raw, 1) := by
      unfold execPostProcessCore
      rw [if_pos hin, processLines_spec, hall]
      simp [c3FailAdjusted]
    rw [hcore]
    cases hex : pyIn "__EXIT" (c3FailAdjusted em raw) with
    | true => simp [c3Trunc, hex]
    | false => simp [c3Trunc, hex]

/-- C3, witness: the amended theorem applied to an input that exercises the
parse-failure branch — the failing marker line and its successor are
dropped and the exit code is 1: the full post-processing returns
`("a", 1)`. -/
theorem c3_amended_witness :
    execPostProcess "__EXIT_0__" "a\n__EXIT_0__ zz\nb" =
      c3AmendedResult "__EXIT_0__" "a\n__EXIT_0__ zz\nb" ∧
    execPostProcess "__EXIT_0__" "a\n__EXIT_0__ zz\nb" = ("a", 1) :=
  ⟨c3_amended "__EXIT_0__" "a\n__EXIT_0__ zz\nb" (by decide), by decide⟩

/-! ## Claim C4 -/

/-- C4, counterexample: the remote exit code is neither an integer field
nor the parse of the last non-empty line.  On the status response `"7\n"`
the code splits to `["7", ""]`, parses the *second* element `""`, fails,
and yields 1 — the last non-empty line is `"7"`, which would give 7 — and
the result field stores the *string* `"1"` (the source wraps the status in
`str(...)`), not an integer. -/
theorem c4_counterexample :
    ¬ claimC4 ∧ (sshExec "ls" ["x"] "7\n").exit_code = "1" :=
  ⟨fun hall => absurd (hall "7\n") (by decide), by decide⟩

/-- C4, amended: the local variant's `exit_code` is an integer, but the
remote variant stores the decimal *string* rendering of the status, and the
status is the parse (after stripping) of the second line of the
newline-split `echo $?` response — or of the sole line when the response
contains no newline — with parse failure yielding 1. -/
theorem c4_amended (cmd : String) (reads : List String) (response : String) :
    (sshExec cmd reads response).exit_code = toString (sshExitStatus response) ∧
    sshExitStatus response = c4AmendedExit response := by
  refine ⟨rfl, ?_⟩
  unfold sshExitStatus c4AmendedExit
  cases houtput : pySplitOn "\n" response with
  | nil => simp
  | cons a rest =>
    cases rest with
    | nil => simp
    | cons b rest2 => simp [List.getD]

/-! ## Claim C5 -/

/-- C5, counterexample: the exit-code marker is *not* built from the
session id — it is a function of the hash alone — so for the session id
`"SESSION"` the command-end and stderr-end markers contain the id but the
exit-code marker does not. -/
theorem c5_counterexample :
    ¬ claimC5 ∧
    pyIn "SESSION" (commandMarker "SESSION" 0) = true ∧
    pyIn "SESSION" (stderrMarker "SESSION" 0) = true ∧
    pyIn "SESSION" (exitMarker 0) = false :=
  ⟨fun hall => absurd (hall "SESSION" 0).2.2 (by decide), by decide, by decide, by decide⟩

/-- C5, amended: the command-end and stderr-end markers are built from a
fixed prefix, the session id and the command hash; the exit-code marker is
built from a fixed prefix and the hash only (it does not involve the
session id). -/
theorem c5_amended (sid : String) (h : Int) :
    pyStartsWith (commandMarker sid h) "__CMD_END_" = true ∧
    pyIn sid (commandMarker sid h) = true ∧
    pyIn (toString h) (commandMarker sid h) = true ∧
    pyStartsWith (stderrMarker sid h) "__STDERR_END_" = true ∧
    pyIn sid (stderrMarker sid h) = true ∧
    pyIn (toString h) (stderrMarker sid h) = true ∧
    exitMarker h = "__EXIT_" ++ toString h ++ "__" := by
  refine ⟨?_, ?_, ?_, ?_, ?_, ?_, rfl⟩
  · rw [pyStartsWith, prefOf_iff]
    exact ⟨(sid ++ "_" ++ toString h ++ "__").data,
      by simp [commandMarker, data_append, List.append_assoc]⟩
  · rw [pyIn, contains_iff]
    exact ⟨("__CMD_END_" : String).data, ("_" ++ toString h ++ "__").data,
      by simp [commandMarker, data_append, List.append_assoc]⟩
  · rw [pyIn, contains_iff]
    exact ⟨("__CMD_END_" ++ sid ++ "_").data, ("__" : String).data,
      by simp [commandMarker, data_append, List.append_assoc]⟩
  · rw [pyStartsWith, prefOf_iff]
    exact ⟨(sid ++ "_" ++ toString h ++ "__").data,
      by simp [stderrMarker, data_append, List.append_assoc]⟩
  · rw [pyIn, contains_iff]
    exact ⟨("__STDERR_END_" : String).data, ("_" ++ toString h ++ "__").data,
      by simp [stderrMarker, data_append, List.append_assoc]⟩
  · rw [pyIn, contains_iff]
    exact ⟨("__STDERR_END_" ++ sid ++ "_").data, ("__" : String).data,
      by simp [stderrMarker, data_append, List.append_assoc]⟩

/-! ## Claim C6 -/

theorem allNowait_ok : ∀ (cs : List String), (∀ c ∈ cs, splitWsL c.data ≠ []) →
    allNowaitE cs = .ok (cs.all fun c => NOWAIT_CMDS.contains (firstTok c))
  | [], _ => rfl
  | c :: rest, hne => by
    cases hsp : splitWsL c.data with
    | nil => exact absurd hsp (hne c (by simp))
    | cons t ts =>
      simp only [allNowaitE, hsp]
      have hft : firstTok c = (⟨t⟩ : String) := by
        rw [firstTok, hsp]
        rfl
      by_cases hmem : NOWAIT_CMDS.contains (⟨t⟩ : String) = true
      · rw [if_pos hmem, allNowait_ok rest (fun x hx => hne x (by simp [hx]))]
        rw [List.all_cons, hft, hmem, Bool.true_and]
      · have hmem' : NOWAIT_CMDS.contains (⟨t⟩ : String) = false := Bool.eq_false_iff.mpr hmem
        rw [if_neg hmem, List.all_cons, hft, hmem', Bool.false_and]

/-- C6, counterexample: the claim that `_has_command_exited` always decides
via the fast path or the snapshot rule fails on a command with an empty
`&&`-clause reached by the allowlist check: `"ls &&"` raises `IndexError`
instead of snapshotting the process table. -/
theorem c6_counterexample : ¬ claimC6 := fun hall => absurd (hall "ls &&" "") (by decide)

/-- C6, amended: provided every stripped `&&`-clause has at least one
whitespace token (no blank clause), the completion check returns true
after the fixed delay, without consulting the snapshot, when every
clause's first token is in the allowlist (`cd`, `ls`, `pwd`), and
otherwise returns true exactly when no snapshot line after the first
(the presumed header), stripped, equals a clause verbatim or extends a
clause with a space and further arguments. -/
theorem c6_amended (cmd ps : String)
    (hne : ∀ c ∈ clausesOf cmd, splitWsL c.data ≠ []) :
    hasCommandExited cmd ps = .ok (if c6Fast cmd then true else c6Snapshot cmd ps) := by
  unfold hasCommandExited
  rw [allNowait_ok (clausesOf cmd) hne]
  cases hb : (clausesOf cmd).all fun c => NOWAIT_CMDS.contains (firstTok c) with
  | true =>
    have hf : c6Fast cmd = true := hb
    rw [hf]
    rfl
  | false =>
    have hf : c6Fast cmd = false := hb
    rw [hf]
    rfl

/-- C6, witness: the amended theorem applied to `sleep 5` with a snapshot
that still lists the process, so the check reports not-exited. -/
theorem c6_amended_witness :
    hasCommandExited "sleep 5" "hdr\nsleep 5" =
      .ok (if c6Fast "sleep 5" then true else c6Snapshot "sleep 5" "hdr\nsleep 5") :=
  c6_amended "sleep 5" "hdr\nsleep 5" (by decide)

/-! ## Claim C7 -/

theorem rstripL_last_nonws (y : List Char) (c : Char) (hc : pyWs c = false) :
    rstripL (y ++ [c]) = y ++ [c] := by
  unfold rstripL
  rw [List.reverse_append, List.reverse_singleton, List.singleton_append,
    List.dropWhile_cons, hc]
  simp

theorem rstrip_append_stderr_lit (q : String) :
    rstripL ((q ++ "' > /dev/stderr").data) = (q ++ "' > /dev/stderr").data := by
  rw [data_append]
  have hlit : ("' > /dev/stderr" : String).data =
      ("' > /dev/stder" : String).data ++ ['r'] := rfl
  rw [hlit, ← List.append_assoc]
  exact rstripL_last_nonws _ 'r' (by decide)

/-- C7: the exact text written to the transport for a local `execute` is
the original command — with `true` substituted when the command is empty —
followed, in this order, by the echo of the exit-code marker together with
`$?`, the echo of the command-end marker, and the `printf` of the
stderr-end marker to the error stream, terminated by the newline that
`sanitize_command` appends (its `rstrip` is a no-op because the marked
command ends in a non-whitespace character). -/
theorem c7_written_command (cmd sid : String) (h : Int) :
    writtenTransport cmd sid h =
      (if cmd = "" then "true" else cmd) ++
      "; echo '" ++ exitMarker h ++ " '$?; " ++
      "echo '" ++ commandMarker sid h ++ "'; " ++
      "printf '" ++ stderrMarker sid h ++ "' > /dev/stderr" ++ "\n" := by
  unfold writtenTransport pySanitize pyRstrip markedCmd
  rw [rstrip_append_stderr_lit, mk_data]

/-! ## Claim C8 -/

theorem pyIn_of_parts (y w : String) (x z : List Char)
    (hw : w.data = x ++ y.data ++ z) : pyIn y w = true := by
  rw [pyIn, contains_iff]
  exact ⟨x, z, hw.symm⟩

theorem processExited_msg_contains (o e : String) :
    pyIn o (readErrorMessage (.processExited o e)) = true ∧
    pyIn e (readErrorMessage (.processExited o e)) = true := by
  constructor
  · refine pyIn_of_parts o _
      (("Subprocess exited unexpectedly.\nCurrent buffer: " ++ "\x7bstderr: " ++ e ++
        ", stdout: ").data) (("\x7d" : String).data) ?_
    simp [readErrorMessage, bufferRepr, data_append, List.append_assoc]
  · refine pyIn_of_parts e _
      (("Subprocess exited unexpectedly.\nCurrent buffer: " ++ "\x7bstderr: ").data)
      ((", stdout: " ++ o ++ "\x7d").data) ?_
    simp [readErrorMessage, bufferRepr, data_append, List.append_assoc]

theorem readTimeout_msg_contains (o e : String) :
    pyIn o (readErrorMessage (.readTimeout o e)) = true ∧
    pyIn e (readErrorMessage (.readTimeout o e)) = true ∧
    pyIn "interactive commands are not supported" (readErrorMessage (.readTimeout o e)) = true := by
  have hsplit : (". Note that interactive commands are not supported and can timeout. " :
      String).data =
      (". Note that " : String).data ++
      ("interactive commands are not supported" : String).data ++
      (" and can timeout. " : String).data := rfl
  refine ⟨?_, ?_, ?_⟩
  · refine pyIn_of_parts o _
      (("Timeout reached while reading from subprocess.\nCurrent buffer: " ++
        "\x7bstderr: " ++ e ++ ", stdout: ").data)
      (("\x7d" ++ ". Note that interactive commands are not supported and can timeout. " ++
        "Use a corresponding non-interactive command if possible.").data) ?_
    simp [readErrorMessage, bufferRepr, data_append, List.append_assoc]
  · refine pyIn_of_parts e _
      (("Timeout reached while reading from subprocess.\nCurrent buffer: " ++
        "\x7bstderr: ").data)
      ((", stdout: " ++ o ++ "\x7d" ++
        ". Note that interactive commands are not supported and can timeout. " ++
        "Use a corresponding non-interactive command if possible.").data) ?_
    simp [readErrorMessage, bufferRepr, data_append, List.append_assoc]
  · refine pyIn_of_parts "interactive commands are not supported" _
      (("Timeout reached while reading from subprocess.\nCurrent buffer: " ++
        "\x7bstderr: " ++ e ++ ", stdout: " ++ o ++ "\x7d" ++ ". Note that ").data)
      ((" and can timeout. " ++
        "Use a corresponding non-interactive command if possible.").data) ?_
    simp [readErrorMessage, bufferRepr, data_append, List.append_assoc, hsplit]

/-- C8: on a local read, a dead subprocess makes the read fail with the
process-exited error whose message carries the buffered partial output;
otherwise, when the required markers are not both present by the deadline,
the read fails with the timeout error whose message carries the buffered
partial output and notes that interactive commands are a likely cause.
(The hypothesis rules out the separate `IndexError` crash of the
completion check, which claim C10 covers.) -/
theorem c8_read_failures (cmd cm sm psOutput rawOut rawErr : String) (wait pe : Bool)
    (hno : hasCommandExited cmd psOutput ≠ .error ()) :
    (pe = true → ∃ o e,
      readLocal cmd cm sm wait psOutput rawOut rawErr pe =
        .error (.read (.processExited o e)) ∧
      pyIn o (readErrorMessage (.processExited o e)) = true ∧
      pyIn e (readErrorMessage (.processExited o e)) = true) ∧
    (pe = false → (pyIn cm rawOut = false ∨ pyIn sm rawErr = false) → ∃ o e,
      readLocal cmd cm sm wait psOutput rawOut rawErr pe =
        .error (.read (.readTimeout o e)) ∧
      pyIn o (readErrorMessage (.readTimeout o e)) = true ∧
      pyIn e (readErrorMessage (.readTimeout o e)) = true ∧
      pyIn "interactive commands are not supported"
        (readErrorMessage (.readTimeout o e)) = true) := by
  constructor
  · rintro rfl
    unfold readLocal
    split
    · cases hh : hasCommandExited cmd psOutput with
      | error u => exact absurd (by cases u; exact hh) hno
      | ok b =>
        cases b with
        | false =>
          exact ⟨"", "", by simp, (processExited_msg_contains "" "").1,
            (processExited_msg_contains "" "").2⟩
        | true =>
          exact ⟨rawOut, rawErr, by simp [readCore],
            (processExited_msg_contains rawOut rawErr).1,
            (processExited_msg_contains rawOut rawErr).2⟩
    · exact ⟨rawOut, rawErr, by simp [readCore],
        (processExited_msg_contains rawOut rawErr).1,
        (processExited_msg_contains rawOut rawErr).2⟩
  · rintro rfl hmk
    have hand : (pyIn cm rawOut && pyIn sm rawErr) = false := by
      rcases hmk with hmk | hmk <;> simp [hmk]
    unfold readLocal
    split
    · cases hh : hasCommandExited cmd psOutput with
      | error u => exact absurd (by cases u; exact hh) hno
      | ok b =>
        cases b with
        | false =>
          have hm := readTimeout_msg_contains "" ""
          exact ⟨"", "", by simp, hm.1, hm.2.1, hm.2.2⟩
        | true =>
          have hm := readTimeout_msg_contains rawOut rawErr
          exact ⟨rawOut, rawErr, by simp [readCore, hand], hm.1, hm.2.1, hm.2.2⟩
    · have hm := readTimeout_msg_contains rawOut rawErr
      exact ⟨rawOut, rawErr, by simp [readCore, hand], hm.1, hm.2.1, hm.2.2⟩

/-- C8, witness: the theorem applied to a dead subprocess (first part)
at concrete inputs. -/
theorem c8_read_failures_witness :
    ∃ o e, readLocal "sleep 1" "M" "S" false "h\n" "a" "b" true =
      .error (.read (.processExited o e)) ∧
    pyIn o (readErrorMessage (.processExited o e)) = true ∧
    pyIn e (readErrorMessage (.processExited o e)) = true :=
  (c8_read_failures "sleep 1" "M" "S" "h\n" "a" "b" false true (by decide)).1 rfl

/-! ## Claim C9 -/

/-- C9, counterexample: a remote wait does not poll for every clause whose
first token is outside the allowlist: a clause with no space at all, such
as `sleep`, also skips polling (the code returns early when the split on a
single space leaves no rest). -/
theorem c9_counterexample : ¬ claimC9 := fun hall => absurd (hall "sleep") (by decide)

/-- C9, amended: a remote clause skips the completion polling exactly when
its first space-token is in the allowlist **or** the clause contains no
space (a single token); every other clause is polled via the remote
process listing, and one polling round is over exactly when no listed
line, stripped, ends with the clause. -/
theorem c9_amended (clause psOutput : String) :
    sshWaitSkips clause =
      (NOWAIT_CMDS.contains ((pySplitOn " " clause).headD "") ||
        ((pySplitOn " " clause).length == 1)) ∧
    (sshWaitDone clause psOutput = true ↔
      ∀ line ∈ pySplitOn "\n" psOutput, pyEndsWith (pyStrip line) clause = false) := by
  constructor
  · cases hsp : pySplitOn " " clause with
    | nil => exact absurd hsp (pySplitOn_ne_nil " " clause)
    | cons c rest =>
      simp only [sshWaitSkips, hsp]
      cases rest with
      | nil => simp
      | cons b rest2 => simp
  · rw [sshWaitDone, List.all_eq_true]
    constructor
    · intro hall line hline
      simpa using hall line hline
    · intro hall line hline
      simpa using hall line hline

/-! ## Claim C10 -/

theorem readLocal_indexError_iff (cmd cm sm ps ro re : String) (pe : Bool)
    (hcmd : cmd ≠ "") :
    (readLocal cmd cm sm true ps ro re pe = .error .indexError) ↔
      hasCommandExited cmd ps = .error () := by
  unfold readLocal
  rw [if_pos ⟨rfl, hcmd⟩]
  cases hh : hasCommandExited cmd ps with
  | error u =>
    cases u
    simp
  | ok b =>
    cases b with
    | false =>
      cases pe <;> simp
    | true =>
      constructor
      · intro hc
        obtain ⟨rerr, hr⟩ := readCore_error_is_read hc
        exact absurd hr (by simp)
      · intro hc
        exact absurd hc (by simp)

theorem hasCommandExited_error_iff (cmd ps : String) :
    hasCommandExited cmd ps = .error () ↔ allNowaitE (clausesOf cmd) = .error () := by
  unfold hasCommandExited
  cases h : allNowaitE (clausesOf cmd) with
  | error u =>
    cases u
    simp
  | ok b => cases b <;> simp

theorem allNowait_error_iff : ∀ cs : List String,
    allNowaitE cs = .error () ↔
      ∃ pre b post, cs = pre ++ b :: post ∧ splitWsL b.data = [] ∧
        ∀ c ∈ pre, ∃ t ts, splitWsL c.data = t :: ts ∧
          NOWAIT_CMDS.contains (⟨t⟩ : String) = true
  | [] => by
    constructor
    · intro hc
      exact absurd hc (by simp [allNowaitE])
    · rintro ⟨pre, b, post, hcs, _, _⟩
      exact absurd hcs (by simp)
  | c :: rest => by
    cases hsp : splitWsL c.data with
    | nil =>
      simp only [allNowaitE, hsp]
      constructor
      · intro _
        exact ⟨[], c, rest, rfl, hsp, by simp⟩
      · intro _
        trivial
    | cons t ts =>
      simp only [allNowaitE, hsp]
      by_cases hmem : NOWAIT_CMDS.contains (⟨t⟩ : String) = true
      · rw [if_pos hmem, allNowait_error_iff rest]
        constructor
        · rintro ⟨pre, b, post, hcs, hb, hpre⟩
          refine ⟨c :: pre, b, post, by rw [List.cons_append, hcs], hb, ?_⟩
          intro x hx
          rcases List.mem_cons.mp hx with rfl | hx
          · exact ⟨t, ts, hsp, hmem⟩
          · exact hpre x hx
        · rintro ⟨pre, b, post, hcs, hb, hpre⟩
          cases pre with
          | nil =>
            rw [List.nil_append] at hcs
            injection hcs with h1 h2
            subst h1
            rw [hsp] at hb
            exact absurd hb (by simp)
          | cons p pre' =>
            rw [List.cons_append] at hcs
            injection hcs with h1 h2
            subst h1
            exact ⟨pre', b, post, h2, hb, fun x hx => hpre x (by simp [hx])⟩
      · rw [if_neg hmem]
        constructor
        · intro hc
          exact absurd hc (by simp)
        · rintro ⟨pre, b, post, hcs, hb, hpre⟩
          cases pre with
          | nil =>
            rw [List.nil_append] at hcs
            injection hcs with h1 h2
            subst h1
            rw [hsp] at hb
            exact absurd hb (by simp)
          | cons p pre' =>
            rw [List.cons_append] at hcs
            injection hcs with h1 h2
            obtain ⟨t', ts', hsp', hmem'⟩ := hpre p (by simp)
            rw [← h1] at hsp'
            rw [hsp] at hsp'
            injection hsp' with h3 _
            rw [← h3] at hmem'
            exact absurd hmem' hmem

/-- C10, counterexample: a command with an empty `&&`-clause does not
always crash the waiting local `execute`: for `sleep 5 &&` the allowlist
generator short-circuits on `sleep` before reaching the empty clause, so
no `IndexError` is raised and the call proceeds to the polling loop
(here, up to its timeout). -/
theorem c10_counterexample : ¬ claimC10 := fun hall =>
  absurd (hall "sleep 5 &&" (by unfold hasEmptyClause; decide) "s" 0 "" "" "" false)
    (by decide)

/-- C10, amended: a waiting local `execute` of a non-interactive, non-empty
command crashes with the `IndexError` exactly when, scanning the stripped
`&&`-clauses from the left, a blank clause is reached before any clause
whose first token is outside the allowlist — so a trailing `&&` after
allowlist commands (`ls &&`) crashes, while one after any other command
(`sleep 5 &&`) does not. -/
theorem c10_amended (cmd sid : String) (h : Int) (psOutput rawOut rawErr : String)
    (pe : Bool) (hni : isInteractiveCommand cmd = false) (hne : cmd ≠ "") :
    ((execLocal cmd sid h true psOutput rawOut rawErr pe).1 = .error .indexError ↔
      reachesEmptyClause cmd) := by
  have hni' : ¬ isInteractiveCommand cmd = true := by
    rw [hni]
    exact Bool.false_ne_true
  unfold execLocal
  rw [if_neg hni', if_neg hne]
  constructor
  · intro hc
    revert hc
    cases hread : readLocal cmd (commandMarker sid h) (stderrMarker sid h) true
        psOutput rawOut rawErr pe with
    | error e =>
      intro hc
      have he : e = ExecError.indexError := Except.error.inj hc
      have hkey : hasCommandExited cmd psOutput = .error () :=
        (readLocal_indexError_iff cmd (commandMarker sid h) (stderrMarker sid h)
          psOutput rawOut rawErr pe hne).mp (he ▸ hread)
      exact (allNowait_error_iff (clausesOf cmd)).mp
        ((hasCommandExited_error_iff cmd psOutput).mp hkey)
    | ok pr =>
      obtain ⟨so, se⟩ := pr
      intro hc
      exact absurd hc (by simp)
  · intro hr
    have hkey : hasCommandExited cmd psOutput = .error () :=
      (hasCommandExited_error_iff cmd psOutput).mpr
        ((allNowait_error_iff (clausesOf cmd)).mpr hr)
    have hrl : readLocal cmd (commandMarker sid h) (stderrMarker sid h) true
        psOutput rawOut rawErr pe = .error .indexError :=
      (readLocal_indexError_iff cmd (commandMarker sid h) (stderrMarker sid h)
        psOutput rawOut rawErr pe hne).mpr hkey
    rw [hrl]

/-- C10, witness: the amended theorem applied to `ls &&`, whose empty
trailing clause is reached by the allowlist check, so the waiting
`execute` fails with the `IndexError`. -/
theorem c10_amended_witness :
    (execLocal "ls &&" "s" 0 true "" "" "" false).1 = .error .indexError :=
  (c10_amended "ls &&" "s" 0 "" "" "" false (by decide) (by decide)).mpr
    ⟨["ls"], "", [], by decide, by decide, fun c hc => by
      rw [List.mem_singleton.mp hc]
      exact ⟨['l', 's'], [], by decide, by decide⟩⟩

end Shell
